import Mathlib

/-!
Verification of `scripts/backfill-project-sequence.py`.

The script connects to a SQLite database, selects all non-deleted rows of
the `tasks` table ordered by `(project_id, created_at)`, walks the result
once while maintaining a dict from project id to the last assigned
sequence, issues `UPDATE tasks SET project_sequence = ? WHERE id = ?` per
row, commits once, then tries to `CREATE UNIQUE INDEX IF NOT EXISTS` on
`(project_id, project_sequence)` inside a broad try/except, and finally
reports `SELECT COUNT(*) FROM tasks WHERE project_sequence IS NOT NULL`.

We embed the table as a list of rows, SQL `ORDER BY` as a stable sort by
the lexicographic key, the Python dict as a function `Nat → Option Nat`,
and each `UPDATE ... WHERE id = ?` as a map over the rows.  The sqlite
transaction (updates become durable only at `conn.commit()`) is embedded
as a connection carrying a committed store and a pending store.
-/

namespace Backfill

/-- A row of the `tasks` table, restricted to the columns the script touches:
`id`, `project_id`, `created_at`, `deleted_at`, `project_sequence`. -/
structure Task where
  id : Nat
  project_id : Nat
  created_at : Nat
  deleted_at : Option Nat
  project_sequence : Option Nat
deriving DecidableEq, Repr

/-- The `tasks` table: a list of rows. -/
abbrev Store := List Task

/-- The `ORDER BY project_id, created_at ASC` comparison. -/
def taskLE (a b : Task) : Prop :=
  a.project_id < b.project_id ∨
    (a.project_id = b.project_id ∧ a.created_at ≤ b.created_at)

instance : DecidableRel taskLE := fun a b => by
  unfold taskLE; infer_instance

instance : IsTotal Task taskLE where
  total a b := by
    unfold taskLE
    rcases Nat.lt_trichotomy a.project_id b.project_id with h | h | h
    · exact Or.inl (Or.inl h)
    · rcases Nat.le_total a.created_at b.created_at with h' | h'
      · exact Or.inl (Or.inr ⟨h, h'⟩)
      · exact Or.inr (Or.inr ⟨h.symm, h'⟩)
    · exact Or.inr (Or.inl h)

instance : IsTrans Task taskLE where
  trans a b c hab hbc := by
    unfold taskLE at *
    rcases hab with h1 | ⟨h1, h1'⟩
    · rcases hbc with h2 | ⟨h2, _⟩
      · exact Or.inl (h1.trans h2)
      · exact Or.inl (h2 ▸ h1)
    · rcases hbc with h2 | ⟨h2, h2'⟩
      · exact Or.inl (h1 ▸ h2)
      · exact Or.inr ⟨h1.trans h2, h1'.trans h2'⟩

/-- `WHERE deleted_at IS NULL`: the non-deleted rows of the store. -/
def liveTasks (db : Store) : List Task :=
  db.filter (fun t => t.deleted_at.isNone)

/-- The rows the SELECT visits: non-deleted rows, ordered by
`project_id, created_at ASC` (a stable sort; ties keep row order). -/
def sortedLive (db : Store) : List Task :=
  List.insertionSort taskLE (liveTasks db)

/-- The SELECT of the script: the ordered non-deleted rows, each projected
to the fetched columns `(id, project_id)`. -/
def selectTasks (db : Store) : List (Nat × Nat) :=
  (sortedLive db).map (fun t => (t.id, t.project_id))

/-- The assignment loop over the fetched rows.  `d` is the Python dict
`project_sequences` (`none` = key absent).  For each `(task_id, project_id)`
the dict entry is created at `1` or incremented, and the update
`(task_id, sequence)` is emitted in loop order. -/
def assignLoop (d : Nat → Option Nat) : List (Nat × Nat) → List (Nat × Nat)
  | [] => []
  | (task_id, project_id) :: rest =>
    let sequence : Nat :=
      match d project_id with
      | none => 1
      | some k => k + 1
    (task_id, sequence) ::
      assignLoop (fun q => if q = project_id then some sequence else d q) rest

/-- `UPDATE tasks SET project_sequence = ? WHERE id = ?` on a store:
every row whose `id` matches gets the new sequence. -/
def applyUpdate (db : Store) (u : Nat × Nat) : Store :=
  db.map (fun t => if t.id = u.1 then { t with project_sequence := some u.2 } else t)

/-- The list of updates `(task_id, sequence)` the script issues, in order. -/
def backfillUpdates (db : Store) : List (Nat × Nat) :=
  assignLoop (fun _ => none) (selectTasks db)

/-- The effect of one run of the select-assign-update-commit portion of the
script on the stored table. -/
def backfill (db : Store) : Store :=
  (backfillUpdates db).foldl applyUpdate db

/-- A sqlite connection: the durable (committed) store and the pending
store the cursor's updates act on.  Updates become durable only at
`conn.commit()`. -/
structure Conn where
  committed : Store
  pending : Store
deriving DecidableEq, Repr

/-- `cursor.execute("UPDATE ...")`: acts on the pending store only. -/
def execUpdate (c : Conn) (u : Nat × Nat) : Conn :=
  { c with pending := applyUpdate c.pending u }

/-- `conn.commit()`: the pending store becomes durable. -/
def commitConn (c : Conn) : Conn :=
  { c with committed := c.pending }

/-- The update loop with a fault oracle: `fails k = true` means the `k`-th
`cursor.execute` raises.  An uncaught exception aborts the script before
`conn.commit()` is reached, so the run ends with the connection as it
stands (`.error`); otherwise all updates run (`.ok`). -/
def runUpdatesExc (fails : Nat → Bool) :
    Conn → List (Nat × Nat) → Nat → Except Conn Conn
  | c, [], _ => .ok c
  | c, u :: rest, k =>
    if fails k then .error c
    else runUpdatesExc fails (execUpdate c u) rest (k + 1)

/-- The select-assign-update-commit portion run against a fault oracle:
on an uncaught mid-loop error the durable state is whatever was last
committed; on success the batch is committed. -/
def backfillFaulty (db : Store) (fails : Nat → Bool) : Except Store Store :=
  match runUpdatesExc fails ⟨db, db⟩ (backfillUpdates db) 0 with
  | .error c => .error c.committed
  | .ok c => .ok (commitConn c).committed

/-- Database state as the script's tail sees it: the table plus whether
the unique index `task_project_sequence_idx` exists. -/
structure DB where
  tasks : Store
  hasIndex : Bool
deriving DecidableEq, Repr

/-- The `(project_id, project_sequence)` keys a unique index constrains:
rows with a NULL sequence are skipped (SQL treats NULLs as distinct). -/
def indexKeys (s : Store) : List (Nat × Nat) :=
  s.filterMap (fun t => t.project_sequence.map (fun v => (t.project_id, v)))

/-- `CREATE UNIQUE INDEX IF NOT EXISTS task_project_sequence_idx
ON tasks(project_id, project_sequence)`: a no-op if the index exists,
otherwise it fails exactly when a duplicate key pair exists. -/
def createIndex (db : DB) : Except String DB :=
  if db.hasIndex then .ok db
  else if (indexKeys db.tasks).Nodup then .ok { db with hasIndex := true }
  else .error "UNIQUE constraint failed: tasks.project_id, tasks.project_sequence"

/-- `SELECT COUNT(*) FROM tasks WHERE project_sequence IS NOT NULL`. -/
def verifyCount (s : Store) : Nat :=
  (s.filter (fun t => t.project_sequence.isSome)).length

/-- The tail of the script: index creation inside `try/except` (any error
is only logged), then the verification count.  Returns the final database
state and the reported count. -/
def scriptTail (db : DB) : DB × Nat :=
  match createIndex db with
  | .ok db' => (db', verifyCount db'.tasks)
  | .error _ => (db, verifyCount db.tasks)

/-- One full run of the script: backfill, then index creation and the
verification report. -/
def runScript (db : DB) : DB × Nat :=
  scriptTail { db with tasks := backfill db.tasks }

/-- A count function viewed as the Python dict `project_sequences`
(`0` = key absent): the dict holds, for each project, how many of its
tasks the scan has passed. -/
def toDict (cnt : Nat → Nat) : Nat → Option Nat :=
  fun p => if cnt p = 0 then none else some (cnt p)

/-- Increment a count function at one project. -/
def bump (cnt : Nat → Nat) (q : Nat) : Nat → Nat :=
  fun r => if r = q then cnt q + 1 else cnt r

/-- The cumulative effect of the run's update list on one row. -/
def applyToTask (t : Task) (us : List (Nat × Nat)) : Task :=
  us.foldl
    (fun t u => if t.id = u.1 then { t with project_sequence := some u.2 } else t) t

/-- A sample store: task 102 is soft-deleted; tasks 104, 105, 103 are the
project-7 tasks in creation order; task 101 is the sole project-9 task. -/
def exDb : Store :=
  [⟨101, 9, 40, none, none⟩, ⟨102, 7, 15, some 99, none⟩, ⟨103, 7, 30, none, none⟩,
   ⟨104, 7, 10, none, none⟩, ⟨105, 7, 20, none, none⟩]

/-- A sample store whose soft-deleted task 102 already carries a sequence
value before the run. -/
def exDb2 : Store :=
  [⟨101, 9, 40, none, none⟩, ⟨102, 7, 15, some 99, some 5⟩, ⟨103, 7, 30, none, none⟩,
   ⟨104, 7, 10, none, none⟩, ⟨105, 7, 20, none, none⟩]

/-- A database whose table carries duplicate `(project_id, project_sequence)`
keys, so that creating the unique index fails. -/
def exDbDup : DB :=
  ⟨[⟨1, 1, 0, none, some 1⟩, ⟨2, 1, 0, none, some 1⟩], false⟩

/-!  ### The assignment loop  -/

theorem assignLoop_toDict_cons (cnt : Nat → Nat) (i q : Nat) (rest : List (Nat × Nat)) :
    assignLoop (toDict cnt) ((i, q) :: rest)
      = (i, cnt q + 1) :: assignLoop (toDict (bump cnt q)) rest := by
  have hseq : (match toDict cnt q with | none => 1 | some k => k + 1) = cnt q + 1 := by
    unfold toDict
    by_cases h : cnt q = 0 <;> simp [h]
  have hdict :
      (fun r => if r = q then some (cnt q + 1) else toDict cnt r) = toDict (bump cnt q) := by
    funext r
    by_cases h : r = q <;> simp [toDict, bump, h]
  simp only [assignLoop, hseq, hdict]

theorem assignLoop_map_fst (d : Nat → Option Nat) (l : List (Nat × Nat)) :
    (assignLoop d l).map Prod.fst = l.map Prod.fst := by
  induction l generalizing d with
  | nil => rfl
  | cons u rest ih =>
    obtain ⟨i, q⟩ := u
    simp only [assignLoop, List.map_cons, ih]

theorem assignLoop_length (d : Nat → Option Nat) (l : List (Nat × Nat)) :
    (assignLoop d l).length = l.length := by
  have h := congrArg List.length (assignLoop_map_fst d l)
  simpa using h

theorem toDict_zero : toDict (fun _ => 0) = fun _ => none := by
  funext p
  simp [toDict]

theorem assignLoop_getElem (cnt : Nat → Nat) (l : List (Nat × Nat)) (k : Nat)
    (hk : k < l.length) (hk' : k < (assignLoop (toDict cnt) l).length) :
    (assignLoop (toDict cnt) l)[k]
      = (l[k].1, cnt l[k].2 + (l.take (k + 1)).countP (fun r => r.2 == l[k].2)) := by
  induction l generalizing cnt k with
  | nil => simp at hk
  | cons u rest ih =>
    obtain ⟨i, q⟩ := u
    cases k with
    | zero =>
      simp [assignLoop_toDict_cons, List.countP_cons]
    | succ k =>
      have hk1 : k < rest.length := Nat.lt_of_succ_lt_succ hk
      have hk2 : k < (assignLoop (toDict (bump cnt q)) rest).length := by
        rw [assignLoop_length]; exact hk1
      have hkey : ((i, q) :: rest)[k + 1] = rest[k] := by simp
      simp only [assignLoop_toDict_cons, List.getElem_cons_succ,
        ih (bump cnt q) k hk1 hk2, hkey, List.take_succ_cons, List.countP_cons]
      by_cases hq : q = rest[k].2
      · subst hq
        simp [bump, Nat.add_assoc, Nat.add_comm 1]
      · have hq' : ¬ rest[k].2 = q := fun h => hq h.symm
        simp [bump, if_neg hq', beq_false_of_ne hq]

theorem assignLoop_zip_filter (cnt : Nat → Nat) (l : List (Nat × Nat)) (p : Nat) :
    (((l.zip (assignLoop (toDict cnt) l)).filter (fun x => x.1.2 == p)).map
        (fun x => x.2.2))
      = List.range' (cnt p + 1) (l.countP (fun r => r.2 == p)) := by
  induction l generalizing cnt with
  | nil => simp [assignLoop]
  | cons u rest ih =>
    obtain ⟨i, q⟩ := u
    rw [assignLoop_toDict_cons, List.zip_cons_cons, List.countP_cons]
    by_cases hq : q = p
    · subst hq
      have hb : bump cnt q q = cnt q + 1 := by simp [bump]
      rw [List.filter_cons_of_pos (by simp)]
      simp only [List.map_cons, ih (bump cnt q), hb, beq_self_eq_true, if_true]
      rw [List.range'_succ]
    · have hp' : ¬ p = q := fun h => hq h.symm
      have hb : bump cnt q p = cnt p := by simp [bump, hp']
      rw [List.filter_cons_of_neg (by simp [hq])]
      simp [ih (bump cnt q), hb, beq_false_of_ne hq]

/-!  ### Applying the update list  -/

theorem applyToTask_nil (t : Task) : applyToTask t [] = t := rfl

theorem applyToTask_cons (t : Task) (u : Nat × Nat) (us : List (Nat × Nat)) :
    applyToTask t (u :: us)
      = applyToTask
          (if t.id = u.1 then { t with project_sequence := some u.2 } else t) us := rfl

theorem foldl_applyUpdate_eq_map (us : List (Nat × Nat)) (db : Store) :
    us.foldl applyUpdate db = db.map (fun t => applyToTask t us) := by
  induction us generalizing db with
  | nil => simp [applyToTask]
  | cons u us ih =>
    rw [List.foldl_cons, ih, applyUpdate, List.map_map]
    rfl

theorem backfill_eq_map (db : Store) :
    backfill db = db.map (fun t => applyToTask t (backfillUpdates db)) :=
  foldl_applyUpdate_eq_map _ _

theorem applyToTask_eq_set (t : Task) (us : List (Nat × Nat)) :
    ∃ s, applyToTask t us = { t with project_sequence := s } := by
  induction us generalizing t with
  | nil => exact ⟨t.project_sequence, rfl⟩
  | cons u us ih =>
    rw [applyToTask_cons]
    by_cases h : t.id = u.1
    · rw [if_pos h]
      obtain ⟨s, hs⟩ := ih { t with project_sequence := some u.2 }
      exact ⟨s, hs⟩
    · rw [if_neg h]
      exact ih t

theorem applyToTask_id (t : Task) (us : List (Nat × Nat)) :
    (applyToTask t us).id = t.id := by
  obtain ⟨s, hs⟩ := applyToTask_eq_set t us
  rw [hs]

theorem applyToTask_project_id (t : Task) (us : List (Nat × Nat)) :
    (applyToTask t us).project_id = t.project_id := by
  obtain ⟨s, hs⟩ := applyToTask_eq_set t us
  rw [hs]

theorem applyToTask_created_at (t : Task) (us : List (Nat × Nat)) :
    (applyToTask t us).created_at = t.created_at := by
  obtain ⟨s, hs⟩ := applyToTask_eq_set t us
  rw [hs]

theorem applyToTask_deleted_at (t : Task) (us : List (Nat × Nat)) :
    (applyToTask t us).deleted_at = t.deleted_at := by
  obtain ⟨s, hs⟩ := applyToTask_eq_set t us
  rw [hs]

theorem applyToTask_of_not_mem (t : Task) (us : List (Nat × Nat))
    (h : t.id ∉ us.map Prod.fst) : applyToTask t us = t := by
  induction us with
  | nil => rfl
  | cons u us ih =>
    simp only [List.map_cons, List.mem_cons, not_or] at h
    rw [applyToTask_cons, if_neg h.1]
    exact ih h.2

theorem applyToTask_set_of_mem (t : Task) (s : Option Nat) (us : List (Nat × Nat)) :
    t.id ∈ us.map Prod.fst →
      applyToTask { t with project_sequence := s } us = applyToTask t us := by
  induction us with
  | nil => intro h; simp at h
  | cons u us ih =>
    intro h
    rw [applyToTask_cons, applyToTask_cons]
    by_cases hid : t.id = u.1
    · have hid' : ({ t with project_sequence := s } : Task).id = u.1 := hid
      rw [if_pos hid, if_pos hid']
    · have hid' : ¬ ({ t with project_sequence := s } : Task).id = u.1 := hid
      rw [if_neg hid, if_neg hid']
      apply ih
      simp only [List.map_cons, List.mem_cons] at h
      exact h.resolve_left hid

theorem applyToTask_of_mem (t : Task) (v : Nat) (us : List (Nat × Nat))
    (hnd : (us.map Prod.fst).Nodup) (h : (t.id, v) ∈ us) :
    applyToTask t us = { t with project_sequence := some v } := by
  induction us with
  | nil => simp at h
  | cons u us ih =>
    rw [List.map_cons, List.nodup_cons] at hnd
    rw [applyToTask_cons]
    rcases List.mem_cons.mp h with heq | h'
    · rw [← heq, if_pos rfl]
      apply applyToTask_of_not_mem
      have h1 : u.1 ∉ us.map Prod.fst := hnd.1
      rw [← heq] at h1
      exact h1
    · by_cases hid : t.id = u.1
      · exfalso
        apply hnd.1
        rw [← hid]
        exact List.mem_map_of_mem Prod.fst h'
      · rw [if_neg hid]
        exact ih hnd.2 h'

theorem applyToTask_isSome_of_isSome (us : List (Nat × Nat)) :
    ∀ t : Task, t.project_sequence.isSome →
      (applyToTask t us).project_sequence.isSome := by
  induction us with
  | nil => exact fun t h => h
  | cons u us ih =>
    intro t h
    rw [applyToTask_cons]
    by_cases hid : t.id = u.1
    · rw [if_pos hid]
      exact ih _ (by simp)
    · rw [if_neg hid]
      exact ih _ h

theorem applyToTask_isSome_of_mem (us : List (Nat × Nat)) :
    ∀ t : Task, t.id ∈ us.map Prod.fst →
      (applyToTask t us).project_sequence.isSome := by
  induction us with
  | nil => intro t h; simp at h
  | cons u us ih =>
    intro t h
    rw [applyToTask_cons]
    by_cases hid : t.id = u.1
    · rw [if_pos hid]
      exact applyToTask_isSome_of_isSome us _ (by simp)
    · rw [if_neg hid]
      apply ih
      simp only [List.map_cons, List.mem_cons] at h
      exact h.resolve_left hid

theorem applyToTask_applyToTask (t : Task) (us : List (Nat × Nat)) :
    applyToTask (applyToTask t us) us = applyToTask t us := by
  by_cases h : t.id ∈ us.map Prod.fst
  · obtain ⟨s, hs⟩ := applyToTask_eq_set t us
    rw [hs]
    calc applyToTask { t with project_sequence := s } us
        = applyToTask t us := applyToTask_set_of_mem t s us h
      _ = { t with project_sequence := s } := hs
  · rw [applyToTask_of_not_mem t us h]
    exact applyToTask_of_not_mem t us h

/-!  ### Structure of one run  -/

theorem liveTasks_backfill (db : Store) :
    liveTasks (backfill db)
      = (liveTasks db).map (fun t => applyToTask t (backfillUpdates db)) := by
  rw [backfill_eq_map]
  unfold liveTasks
  have hp : ((fun t : Task => t.deleted_at.isNone) ∘ fun t => applyToTask t (backfillUpdates db))
      = fun t : Task => t.deleted_at.isNone := by
    funext t
    simp [Function.comp, applyToTask_deleted_at]
  rw [List.filter_map, hp]

theorem taskLE_applyToTask (us : List (Nat × Nat)) (a b : Task) :
    taskLE (applyToTask a us) (applyToTask b us) ↔ taskLE a b := by
  unfold taskLE
  rw [applyToTask_project_id, applyToTask_project_id,
    applyToTask_created_at, applyToTask_created_at]

theorem sortedLive_backfill (db : Store) :
    sortedLive (backfill db)
      = (sortedLive db).map (fun t => applyToTask t (backfillUpdates db)) := by
  unfold sortedLive
  rw [liveTasks_backfill]
  exact (List.map_insertionSort taskLE taskLE (fun t => applyToTask t (backfillUpdates db))
    (liveTasks db) (fun a _ b _ => (taskLE_applyToTask (backfillUpdates db) a b).symm)).symm

theorem selectTasks_backfill (db : Store) :
    selectTasks (backfill db) = selectTasks db := by
  unfold selectTasks
  rw [sortedLive_backfill, List.map_map]
  apply List.map_congr_left
  intro t _
  simp [Function.comp, applyToTask_id, applyToTask_project_id]

theorem backfillUpdates_backfill (db : Store) :
    backfillUpdates (backfill db) = backfillUpdates db := by
  unfold backfillUpdates
  rw [selectTasks_backfill]

theorem backfill_backfill (db : Store) : backfill (backfill db) = backfill db := by
  rw [backfill_eq_map (backfill db), backfillUpdates_backfill]
  rw [backfill_eq_map db, List.map_map]
  apply List.map_congr_left
  intro t _
  exact applyToTask_applyToTask t (backfillUpdates db)

theorem mem_sortedLive (db : Store) (t : Task) : t ∈ sortedLive db ↔ t ∈ liveTasks db := by
  unfold sortedLive
  exact List.mem_insertionSort taskLE

theorem sortedLive_ids_nodup (db : Store) (h : (db.map Task.id).Nodup) :
    ((sortedLive db).map Task.id).Nodup := by
  have h1 : ((liveTasks db).map Task.id).Nodup :=
    ((List.filter_sublist db).map Task.id).nodup h
  exact ((List.perm_insertionSort taskLE (liveTasks db)).map Task.id).nodup_iff.mpr h1

theorem backfillUpdates_map_fst (db : Store) :
    (backfillUpdates db).map Prod.fst = (sortedLive db).map Task.id := by
  unfold backfillUpdates
  rw [assignLoop_map_fst]
  unfold selectTasks
  rw [List.map_map]
  rfl

theorem backfillUpdates_fst_nodup (db : Store) (h : (db.map Task.id).Nodup) :
    ((backfillUpdates db).map Prod.fst).Nodup := by
  rw [backfillUpdates_map_fst]
  exact sortedLive_ids_nodup db h

theorem mem_updates_of_live (db : Store) (t : Task) (ht : t ∈ db)
    (hl : t.deleted_at.isNone = true) :
    t.id ∈ (backfillUpdates db).map Prod.fst := by
  rw [backfillUpdates_map_fst]
  apply List.mem_map_of_mem
  rw [mem_sortedLive]
  exact List.mem_filter.mpr ⟨ht, hl⟩

theorem not_mem_updates_of_deleted (db : Store) (t : Task)
    (h : (db.map Task.id).Nodup) (ht : t ∈ db) (hd : t.deleted_at.isSome = true) :
    t.id ∉ (backfillUpdates db).map Prod.fst := by
  rw [backfillUpdates_map_fst]
  intro hmem
  obtain ⟨u, hu, huid⟩ := List.mem_map.mp hmem
  have hu' : u ∈ liveTasks db := (mem_sortedLive db u).mp hu
  have huDb : u ∈ db := (List.mem_filter.mp hu').1
  have huLive : u.deleted_at.isNone = true := (List.mem_filter.mp hu').2
  have hne : u ≠ t := by
    intro he
    rw [he] at huLive
    rw [Option.isNone_iff_eq_none.mp huLive] at hd
    simp at hd
  exact hne (List.inj_on_of_nodup_map h huDb ht huid)

theorem backfill_deleted_unchanged (db : Store) (t : Task)
    (h : (db.map Task.id).Nodup) (ht : t ∈ db) (hd : t.deleted_at.isSome = true) :
    applyToTask t (backfillUpdates db) = t :=
  applyToTask_of_not_mem _ _ (not_mem_updates_of_deleted db t h ht hd)

theorem backfill_length (db : Store) : (backfill db).length = db.length := by
  rw [backfill_eq_map]
  exact List.length_map _ _

theorem backfillUpdates_length (db : Store) :
    (backfillUpdates db).length = (sortedLive db).length := by
  unfold backfillUpdates
  rw [assignLoop_length]
  unfold selectTasks
  exact List.length_map _ _

/-!  ### Values carried by the update list  -/

theorem zip_select_proj (p : Nat) :
    ∀ (S : List Task) (us : List (Nat × Nat)),
      ((((S.map (fun t => (t.id, t.project_id))).zip us).filter
          (fun x => x.1.2 == p)).map (fun x => x.2.2))
        = (((S.zip us).filter (fun x => x.1.project_id == p)).map (fun x => x.2.2)) := by
  intro S
  induction S with
  | nil => intro us; rfl
  | cons t S ih =>
    intro us
    cases us with
    | nil => rfl
    | cons u us =>
      simp only [List.map_cons, List.zip_cons_cons, List.filter_cons]
      by_cases hq : (t.project_id == p) = true
      · simp only [hq, if_true, List.map_cons, ih us]
      · simp only [Bool.not_eq_true] at hq
        simp only [hq, Bool.false_eq_true, if_false, ih us]

theorem map_filter_zip_spec (g : Task → Task) (p : Nat) :
    ∀ (S : List Task) (us : List (Nat × Nat)), S.length = us.length →
      (∀ x ∈ S.zip us, g x.1 = { x.1 with project_sequence := some x.2.2 }) →
      (((S.map g).filter (fun t => t.project_id == p)).map (fun t => t.project_sequence))
        = (((S.zip us).filter (fun x => x.1.project_id == p)).map (fun x => some x.2.2)) := by
  intro S
  induction S with
  | nil => intro us _ _; rfl
  | cons t S ih =>
    intro us hlen hg
    cases us with
    | nil => simp at hlen
    | cons u us =>
      have hlen' : S.length = us.length := by simpa using hlen
      have hgt : g t = { t with project_sequence := some u.2 } :=
        hg (t, u) (by rw [List.zip_cons_cons]; exact List.mem_cons_self _ _)
      have hrest := ih us hlen' (fun x hx => hg x (by rw [List.zip_cons_cons]; exact List.mem_cons_of_mem _ hx))
      simp only [List.map_cons, List.zip_cons_cons, List.filter_cons, hgt]
      by_cases hq : (t.project_id == p) = true
      · simp only [hq, if_true, List.map_cons, hrest]
      · simp only [Bool.not_eq_true] at hq
        simp only [hq, Bool.false_eq_true, if_false, hrest]

theorem backfill_zip_pointwise (db : Store) (hids : (db.map Task.id).Nodup) :
    ∀ x ∈ (sortedLive db).zip (backfillUpdates db),
      applyToTask x.1 (backfillUpdates db)
        = { x.1 with project_sequence := some x.2.2 } := by
  intro x hx
  obtain ⟨k, hk, hxe⟩ := List.mem_iff_getElem.mp hx
  have hkS : k < (sortedLive db).length := by
    rw [List.length_zip] at hk
    exact lt_of_lt_of_le hk (Nat.min_le_left _ _)
  have hkU : k < (backfillUpdates db).length := by
    rw [List.length_zip] at hk
    exact lt_of_lt_of_le hk (Nat.min_le_right _ _)
  have hkU' : k < ((backfillUpdates db).map Prod.fst).length := by
    rw [List.length_map]
    exact hkU
  have hkS' : k < ((sortedLive db).map Task.id).length := by
    rw [List.length_map]
    exact hkS
  have hfst : (backfillUpdates db)[k].1 = (sortedLive db)[k].id := by
    have h1 : ((backfillUpdates db).map Prod.fst)[k]
        = ((sortedLive db).map Task.id)[k] := by
      have he := backfillUpdates_map_fst db
      exact List.getElem_of_eq he hkU'
    rwa [List.getElem_map, List.getElem_map] at h1
  have hxeq : x = ((sortedLive db)[k], (backfillUpdates db)[k]) := by
    rw [← hxe, List.getElem_zip]
  rw [hxeq]
  have hmem : ((sortedLive db)[k].id, (backfillUpdates db)[k].2) ∈ backfillUpdates db := by
    rw [← hfst, Prod.mk.eta]
    exact List.getElem_mem hkU
  exact applyToTask_of_mem _ _ _ (backfillUpdates_fst_nodup db hids) hmem

theorem assignLoop_none_getElem (l : List (Nat × Nat)) (k : Nat) (hk : k < l.length)
    (hk' : k < (assignLoop (fun _ => none) l).length) :
    (assignLoop (fun _ => none) l)[k]
      = (l[k].1, (l.take (k + 1)).countP (fun r => r.2 == l[k].2)) := by
  have hk2 : k < (assignLoop (toDict fun _ => 0) l).length := by
    rw [toDict_zero]
    exact hk'
  have h0 := assignLoop_getElem (fun _ => 0) l k hk hk2
  have e : assignLoop (toDict fun _ => 0) l = assignLoop (fun _ => none) l := by
    rw [toDict_zero]
  have h1 := List.getElem_of_eq e hk2
  rw [h0] at h1
  simpa using h1.symm

theorem backfillUpdates_getElem (db : Store) (k : Nat)
    (hk : k < (sortedLive db).length) (hk' : k < (backfillUpdates db).length) :
    (backfillUpdates db)[k]
      = ((sortedLive db)[k].id,
         ((sortedLive db).take (k + 1)).countP
           (fun r => r.project_id == (sortedLive db)[k].project_id)) := by
  have hksel : k < (selectTasks db).length := by
    unfold selectTasks
    rw [List.length_map]
    exact hk
  unfold backfillUpdates at hk' ⊢
  have h := assignLoop_none_getElem (selectTasks db) k hksel hk'
  rw [h]
  have hsel : (selectTasks db)[k] = ((sortedLive db)[k].id, (sortedLive db)[k].project_id) := by
    unfold selectTasks
    rw [List.getElem_map]
  rw [hsel]
  have htake : (selectTasks db).take (k + 1)
      = ((sortedLive db).take (k + 1)).map (fun t => (t.id, t.project_id)) := by
    unfold selectTasks
    rw [List.map_take]
  rw [htake, List.countP_map]
  rfl

theorem backfill_value_at (db : Store) (hids : (db.map Task.id).Nodup) (k : Nat)
    (hk : k < (sortedLive db).length) :
    applyToTask ((sortedLive db).get ⟨k, hk⟩) (backfillUpdates db)
      = { (sortedLive db).get ⟨k, hk⟩ with
          project_sequence :=
            some (((sortedLive db).take (k + 1)).countP
              (fun r => r.project_id == ((sortedLive db).get ⟨k, hk⟩).project_id)) } := by
  have hk' : k < (backfillUpdates db).length := by
    rw [backfillUpdates_length]
    exact hk
  have hzlen : k < ((sortedLive db).zip (backfillUpdates db)).length := by
    rw [List.length_zip]
    exact Nat.lt_min.mpr ⟨hk, hk'⟩
  have hx : ((sortedLive db)[k], (backfillUpdates db)[k])
      ∈ (sortedLive db).zip (backfillUpdates db) := by
    rw [← List.getElem_zip]
    exact List.getElem_mem hzlen
  have h1 := backfill_zip_pointwise db hids _ hx
  rw [backfillUpdates_getElem db k hk hk'] at h1
  simpa using h1

theorem sorted_values_eq (db : Store) (hids : (db.map Task.id).Nodup) (p : Nat) :
    ((((sortedLive db).filter (fun t => t.project_id == p)).map
        (fun t => applyToTask t (backfillUpdates db))).map (fun t => t.project_sequence))
      = (List.range' 1
          (((liveTasks db).filter (fun t => t.project_id == p)).length)).map some := by
  have hfil : ((fun t : Task => t.project_id == p)
        ∘ fun t => applyToTask t (backfillUpdates db))
      = fun t : Task => t.project_id == p := by
    funext t
    simp [Function.comp, applyToTask_project_id]
  have h1 : ((sortedLive db).filter (fun t => t.project_id == p)).map
        (fun t => applyToTask t (backfillUpdates db))
      = ((sortedLive db).map (fun t => applyToTask t (backfillUpdates db))).filter
          (fun t => t.project_id == p) := by
    rw [List.filter_map, hfil]
  rw [h1]
  rw [map_filter_zip_spec (fun t => applyToTask t (backfillUpdates db)) p (sortedLive db)
    (backfillUpdates db) (backfillUpdates_length db).symm (backfill_zip_pointwise db hids)]
  have h2 : (((sortedLive db).zip (backfillUpdates db)).filter
        (fun x => x.1.project_id == p)).map (fun x => some x.2.2)
      = ((((sortedLive db).zip (backfillUpdates db)).filter
          (fun x => x.1.project_id == p)).map (fun x => x.2.2)).map some := by
    rw [List.map_map]
    rfl
  rw [h2, ← zip_select_proj p (sortedLive db) (backfillUpdates db)]
  have hcnt : ((sortedLive db).map (fun t => (t.id, t.project_id))).countP
        (fun r => r.2 == p)
      = ((liveTasks db).filter (fun t => t.project_id == p)).length := by
    rw [List.countP_map]
    unfold sortedLive
    rw [(List.perm_insertionSort taskLE (liveTasks db)).countP_eq]
    rw [List.countP_eq_length_filter]
    rfl
  unfold backfillUpdates selectTasks
  rw [← toDict_zero, assignLoop_zip_filter, hcnt]

/-- C1: after `backfill` runs on a store whose rows have pairwise-distinct
ids and whose `project_sequence` values are all initially unset, for every
project `p` the values of `project_sequence` over the non-deleted tasks of
`p` form, up to permutation, exactly `some 1, ..., some N` with no
duplicates and no gaps, where `N` is the number of non-deleted tasks of
project `p`. -/
theorem C1_dense_gapless (db : Store) (hids : (db.map Task.id).Nodup)
    (hinit : ∀ t ∈ db, t.project_sequence = none) (p : Nat) :
    List.Perm
      (((liveTasks (backfill db)).filter (fun t => t.project_id == p)).map
        (fun t => t.project_sequence))
      ((List.range' 1
          (((liveTasks db).filter (fun t => t.project_id == p)).length)).map some) := by
  rw [liveTasks_backfill]
  have hfil : ((fun t : Task => t.project_id == p)
        ∘ fun t => applyToTask t (backfillUpdates db))
      = fun t : Task => t.project_id == p := by
    funext t
    simp [Function.comp, applyToTask_project_id]
  rw [List.filter_map, hfil]
  have hperm : List.Perm ((liveTasks db).filter (fun t => t.project_id == p))
      ((sortedLive db).filter (fun t => t.project_id == p)) := by
    unfold sortedLive
    exact (List.perm_insertionSort taskLE (liveTasks db)).symm.filter _
  rw [← sorted_values_eq db hids p]
  exact (hperm.map _).map _

/-- Witness for C1: the sample store has distinct ids and unset sequences,
and project 7's non-deleted tasks end up with sequences `1, 2, 3`. -/
theorem C1_dense_gapless_witness :
    ((exDb.map Task.id).Nodup ∧ ∀ t ∈ exDb, t.project_sequence = none) ∧
      List.Perm
        (((liveTasks (backfill exDb)).filter (fun t => t.project_id == 7)).map
          (fun t => t.project_sequence))
        ((List.range' 1
            (((liveTasks exDb).filter (fun t => t.project_id == 7)).length)).map some) :=
  ⟨⟨by decide, by decide⟩, C1_dense_gapless exDb (by decide) (by decide) 7⟩

theorem sortedLive_sorted (db : Store) : (sortedLive db).Sorted taskLE :=
  List.sorted_insertionSort taskLE (liveTasks db)

/-- C2: for two non-deleted tasks of the same project, the one created
strictly earlier is assigned a strictly smaller sequence number. -/
theorem C2_monotone (db : Store) (hids : (db.map Task.id).Nodup)
    (i j : Nat) (hi : i < db.length) (hj : j < db.length)
    (hlivei : (db.get ⟨i, hi⟩).deleted_at.isNone = true)
    (hlivej : (db.get ⟨j, hj⟩).deleted_at.isNone = true)
    (hproj : (db.get ⟨i, hi⟩).project_id = (db.get ⟨j, hj⟩).project_id)
    (hc : (db.get ⟨i, hi⟩).created_at < (db.get ⟨j, hj⟩).created_at) :
    ∃ sa sb,
      ((backfill db).get ⟨i, (backfill_length db).symm ▸ hi⟩).project_sequence = some sa ∧
      ((backfill db).get ⟨j, (backfill_length db).symm ▸ hj⟩).project_sequence = some sb ∧
      sa < sb := by
  have haDb : db.get ⟨i, hi⟩ ∈ db := db.get_mem i hi
  have hbDb : db.get ⟨j, hj⟩ ∈ db := db.get_mem j hj
  have haS : db.get ⟨i, hi⟩ ∈ sortedLive db :=
    (mem_sortedLive db _).mpr (List.mem_filter.mpr ⟨haDb, hlivei⟩)
  have hbS : db.get ⟨j, hj⟩ ∈ sortedLive db :=
    (mem_sortedLive db _).mpr (List.mem_filter.mpr ⟨hbDb, hlivej⟩)
  obtain ⟨ka, hka, hkaE⟩ := List.mem_iff_getElem.mp haS
  obtain ⟨kb, hkb, hkbE⟩ := List.mem_iff_getElem.mp hbS
  have hne : db.get ⟨i, hi⟩ ≠ db.get ⟨j, hj⟩ := by
    intro he
    rw [he] at hc
    exact lt_irrefl _ hc
  have hklt : ka < kb := by
    rcases Nat.lt_trichotomy ka kb with h | h | h
    · exact h
    · exfalso
      apply hne
      subst h
      exact hkaE.symm.trans hkbE
    · exfalso
      have hrel := (sortedLive_sorted db).rel_get_of_lt
        (a := ⟨kb, hkb⟩) (b := ⟨ka, hka⟩) h
      rw [List.get_eq_getElem, List.get_eq_getElem] at hrel
      rw [hkaE, hkbE] at hrel
      unfold taskLE at hrel
      rcases hrel with h1 | ⟨h1, h2⟩
      · rw [hproj] at h1
        exact lt_irrefl _ h1
      · exact absurd hc (not_lt.mpr h2)
  have hva := backfill_value_at db hids ka hka
  have hvb := backfill_value_at db hids kb hkb
  rw [List.get_eq_getElem] at hva hvb
  rw [hkaE] at hva
  rw [hkbE] at hvb
  have hi' : i < (backfill db).length := by
    rw [backfill_length]
    exact hi
  have hj' : j < (backfill db).length := by
    rw [backfill_length]
    exact hj
  have hgi : (backfill db).get ⟨i, hi'⟩
      = applyToTask (db.get ⟨i, hi⟩) (backfillUpdates db) := by
    rw [List.get_eq_getElem,
      List.getElem_of_eq (backfill_eq_map db) hi',
      List.getElem_map]
    rfl
  have hgj : (backfill db).get ⟨j, hj'⟩
      = applyToTask (db.get ⟨j, hj⟩) (backfillUpdates db) := by
    rw [List.get_eq_getElem,
      List.getElem_of_eq (backfill_eq_map db) hj',
      List.getElem_map]
    rfl
  refine ⟨((sortedLive db).take (ka + 1)).countP
      (fun r => r.project_id == (db.get ⟨i, hi⟩).project_id),
    ((sortedLive db).take (kb + 1)).countP
      (fun r => r.project_id == (db.get ⟨j, hj⟩).project_id), ?ga, ?gb, ?lt⟩
  case ga =>
    have : (backfill db).get ⟨i, (backfill_length db).symm ▸ hi⟩
        = (backfill db).get ⟨i, hi'⟩ := rfl
    rw [this, hgi, hva]
  case gb =>
    have : (backfill db).get ⟨j, (backfill_length db).symm ▸ hj⟩
        = (backfill db).get ⟨j, hj'⟩ := rfl
    rw [this, hgj, hvb]
  case lt =>
    rw [hproj]
    have hmono : ((sortedLive db).take (ka + 1)).countP
          (fun r => r.project_id == (db.get ⟨j, hj⟩).project_id)
        ≤ ((sortedLive db).take kb).countP
          (fun r => r.project_id == (db.get ⟨j, hj⟩).project_id) := by
      have hsub : ((sortedLive db).take (ka + 1)).Sublist ((sortedLive db).take kb) := by
        have h0 := List.take_sublist (ka + 1) ((sortedLive db).take kb)
        rwa [List.take_take, min_eq_left hklt] at h0
      exact hsub.countP_le _
    have hstep : ((sortedLive db).take (kb + 1)).countP
          (fun r => r.project_id == (db.get ⟨j, hj⟩).project_id)
        = ((sortedLive db).take kb).countP
            (fun r => r.project_id == (db.get ⟨j, hj⟩).project_id) + 1 := by
      rw [List.take_succ]
      rw [List.countP_append]
      have : (sortedLive db)[kb]? = some (db.get ⟨j, hj⟩) := by
        rw [List.getElem?_eq_getElem hkb, hkbE]
      rw [this]
      simp
    rw [hstep]
    exact Nat.lt_succ_of_le hmono

/-- Witness for C2 at the sample store: task 104 (created at 10) gets a
smaller sequence than task 105 (created at 20) in project 7. -/
theorem C2_monotone_witness :
    ∃ sa sb,
      ((backfill exDb).get ⟨3, by decide⟩).project_sequence = some sa ∧
      ((backfill exDb).get ⟨4, by decide⟩).project_sequence = some sb ∧
      sa < sb :=
  C2_monotone exDb (by decide) 3 4 (by decide) (by decide) (by decide) (by decide)
    (by decide) (by decide)

theorem backfill_get (db : Store) (k : Nat) (hk : k < db.length)
    (hk' : k < (backfill db).length) :
    (backfill db).get ⟨k, hk'⟩ = applyToTask (db.get ⟨k, hk⟩) (backfillUpdates db) := by
  rw [List.get_eq_getElem, List.getElem_of_eq (backfill_eq_map db) hk', List.getElem_map]
  rfl

/-- C3: the single scan assigns, for each project `p`, the consecutive
values `1, 2, ...` in scan order to `p`'s rows (first seen gets `1`, each
later row of the same project exactly one more than the previous one); the
updates are keyed by the scanned rows' ids in scan order; and with unique
ids every row is updated at most once per run. -/
theorem C3_scan_assignment (db : Store) (hids : (db.map Task.id).Nodup) :
    (backfillUpdates db).map Prod.fst = (selectTasks db).map Prod.fst ∧
    (∀ p : Nat,
      ((((selectTasks db).zip (backfillUpdates db)).filter
          (fun x => x.1.2 == p)).map (fun x => x.2.2))
        = List.range' 1 ((selectTasks db).countP (fun r => r.2 == p))) ∧
    ((backfillUpdates db).map Prod.fst).Nodup := by
  refine ⟨assignLoop_map_fst _ _, ?scan, backfillUpdates_fst_nodup db hids⟩
  intro p
  unfold backfillUpdates
  rw [← toDict_zero, assignLoop_zip_filter]

/-- Witness for C3 at the sample store, with the project-7 scan values. -/
theorem C3_scan_assignment_witness :
    (exDb.map Task.id).Nodup ∧
    (backfillUpdates exDb).map Prod.fst = (selectTasks exDb).map Prod.fst ∧
    ((((selectTasks exDb).zip (backfillUpdates exDb)).filter
        (fun x => x.1.2 == 7)).map (fun x => x.2.2))
      = List.range' 1 ((selectTasks exDb).countP (fun r => r.2 == 7)) ∧
    ((backfillUpdates exDb).map Prod.fst).Nodup :=
  ⟨by decide, (C3_scan_assignment exDb (by decide)).1,
    (C3_scan_assignment exDb (by decide)).2.1 7,
    (C3_scan_assignment exDb (by decide)).2.2⟩

/-!  ### The transaction boundary  -/

theorem execUpdate_committed (c : Conn) (u : Nat × Nat) :
    (execUpdate c u).committed = c.committed := rfl

theorem runUpdatesExc_error_committed (fails : Nat → Bool) :
    ∀ (l : List (Nat × Nat)) (c : Conn) (k : Nat) (c' : Conn),
      runUpdatesExc fails c l k = Except.error c' → c'.committed = c.committed := by
  intro l
  induction l with
  | nil =>
    intro c k c' h
    simp [runUpdatesExc] at h
  | cons u rest ih =>
    intro c k c' h
    rw [runUpdatesExc] at h
    by_cases hf : fails k = true
    · rw [if_pos hf] at h
      injection h with h1
      rw [← h1]
    · rw [if_neg hf] at h
      rw [ih (execUpdate c u) (k + 1) c' h]
      rfl

/-- C4: a database error raised inside the update loop, before the single
batch commit is reached, leaves the durable store exactly as it was before
the run. -/
theorem C4_atomic_on_error (db : Store) (fails : Nat → Bool) (s : Store)
    (h : backfillFaulty db fails = Except.error s) : s = db := by
  unfold backfillFaulty at h
  cases he : runUpdatesExc fails ⟨db, db⟩ (backfillUpdates db) 0 with
  | error c =>
    rw [he] at h
    injection h with h1
    rw [← h1]
    exact runUpdatesExc_error_committed fails _ _ _ _ he
  | ok c =>
    rw [he] at h
    exact absurd h (by simp)

/-- Witness for C4: failing at the third update of the sample store leaves
the durable store untouched. -/
theorem C4_atomic_on_error_witness :
    backfillFaulty exDb (fun k => k == 2) = Except.error exDb ∧ exDb = exDb :=
  ⟨by rfl, C4_atomic_on_error exDb (fun k => k == 2) exDb (by rfl)⟩

/-!  ### The script tail: index creation and verification  -/

theorem createIndex_hasIndex_ok (d : DB) (h : d.hasIndex = true) :
    createIndex d = Except.ok d := by
  unfold createIndex
  rw [if_pos h]

theorem createIndex_ok_inv (d d' : DB) (h : createIndex d = Except.ok d') :
    d'.hasIndex = true ∧ d'.tasks = d.tasks := by
  unfold createIndex at h
  by_cases h1 : d.hasIndex = true
  · rw [if_pos h1] at h
    injection h with h2
    rw [← h2]
    exact ⟨h1, rfl⟩
  · rw [if_neg h1] at h
    by_cases h2 : (indexKeys d.tasks).Nodup
    · rw [if_pos h2] at h
      injection h with h3
      rw [← h3]
      exact ⟨rfl, rfl⟩
    · rw [if_neg h2] at h
      exact absurd h (by simp)

theorem scriptTail_tasks (d : DB) : ((scriptTail d).1).tasks = d.tasks := by
  unfold scriptTail
  cases h : createIndex d with
  | ok d' => exact (createIndex_ok_inv d d' h).2
  | error e => rfl

theorem scriptTail_count (d : DB) : (scriptTail d).2 = verifyCount d.tasks := by
  unfold scriptTail
  cases h : createIndex d with
  | ok d' =>
    show verifyCount d'.tasks = verifyCount d.tasks
    rw [(createIndex_ok_inv d d' h).2]
  | error e => rfl

theorem scriptTail_of_error (d : DB) (e : String) (h : createIndex d = Except.error e) :
    scriptTail d = (d, verifyCount d.tasks) := by
  unfold scriptTail
  rw [h]

/-- C5: the index-creation step never aborts the run: whatever it does —
succeed, find the index already present, or fail — the table is left
unchanged and the final verification count is always reached and reported;
in particular an index-creation error is caught and only changes nothing. -/
theorem C5_index_error_caught (db : DB) :
    ((scriptTail db).2 = verifyCount db.tasks ∧ ((scriptTail db).1).tasks = db.tasks) ∧
    (∀ e, createIndex db = Except.error e → scriptTail db = (db, verifyCount db.tasks)) :=
  ⟨⟨scriptTail_count db, scriptTail_tasks db⟩, fun e h => scriptTail_of_error db e h⟩

/-- Witness for C5: on a table with duplicate keys the index creation
fails, yet the tail still reports the verification count. -/
theorem C5_index_error_caught_witness :
    createIndex exDbDup
        = Except.error
            "UNIQUE constraint failed: tasks.project_id, tasks.project_sequence" ∧
      scriptTail exDbDup = (exDbDup, verifyCount exDbDup.tasks) :=
  ⟨by rfl, (C5_index_error_caught exDbDup).2
    "UNIQUE constraint failed: tasks.project_id, tasks.project_sequence" (by rfl)⟩

/-- C6: a soft-deleted row is never assigned a sequence by the run: with
unique row ids its row is left completely unchanged. -/
theorem C6_deleted_untouched (db : Store) (hids : (db.map Task.id).Nodup)
    (k : Nat) (hk : k < db.length) (hk' : k < (backfill db).length)
    (hdel : (db.get ⟨k, hk⟩).deleted_at.isSome = true) :
    (backfill db).get ⟨k, hk'⟩ = db.get ⟨k, hk⟩ := by
  rw [backfill_get db k hk hk']
  exact backfill_deleted_unchanged db _ hids (db.get_mem k hk) hdel

/-- Witness for C6: the soft-deleted task 102 of the sample store is
unchanged by the run. -/
theorem C6_deleted_untouched_witness :
    (backfill exDb).get ⟨1, by decide⟩ = exDb.get ⟨1, by decide⟩ :=
  C6_deleted_untouched exDb (by decide) 1 (by decide) (by decide) (by decide)

theorem scriptTail_idem (d : DB) : scriptTail ((scriptTail d).1) = scriptTail d := by
  cases h : createIndex d with
  | ok d' =>
    have h1 : scriptTail d = (d', verifyCount d'.tasks) := by
      unfold scriptTail
      rw [h]
    have h2 : scriptTail d' = (d', verifyCount d'.tasks) := by
      unfold scriptTail
      rw [createIndex_hasIndex_ok d' (createIndex_ok_inv d d' h).1]
    rw [h1]
    exact h2
  | error e =>
    have h1 : scriptTail d = (d, verifyCount d.tasks) := by
      unfold scriptTail
      rw [h]
    rw [h1]
    exact h1

/-- C7: running the whole script a second time against the state produced
by a first run deterministically reproduces the same stored state and
reports the same verification count. -/
theorem DB_eta (d : DB) (ts : Store) (h : d.tasks = ts) :
    ({ d with tasks := ts } : DB) = d := by
  rw [← h]

theorem C7_second_run_same (db : DB) :
    runScript ((runScript db).1) = runScript db := by
  unfold runScript
  have h3 : ((scriptTail { db with tasks := backfill db.tasks }).1).tasks
      = backfill ((scriptTail { db with tasks := backfill db.tasks }).1).tasks := by
    have h1 : ((scriptTail { db with tasks := backfill db.tasks }).1).tasks
        = backfill db.tasks := scriptTail_tasks _
    rw [h1, backfill_backfill]
  rw [DB_eta _ _ h3]
  exact scriptTail_idem _

/-- C8: on the sample store — three non-deleted project-7 tasks created at
10 < 20 < 30, one project-9 task, and a soft-deleted project-7 task — the
run assigns project 7's tasks the sequences 1, 2, 3 in creation order,
assigns project 9's task sequence 1, and assigns nothing to the deleted
row. -/
theorem C8_example_run :
    backfill exDb =
      [⟨101, 9, 40, none, some 1⟩, ⟨102, 7, 15, some 99, none⟩,
       ⟨103, 7, 30, none, some 3⟩, ⟨104, 7, 10, none, some 1⟩,
       ⟨105, 7, 20, none, some 2⟩] := by decide

/-- C9: the run inserts and removes no row, and every column other than
`project_sequence` is left unchanged on every row. -/
theorem C9_frame (db : Store) :
    (backfill db).length = db.length ∧
    ∀ (k : Nat) (hk : k < db.length) (hk' : k < (backfill db).length),
      ((backfill db).get ⟨k, hk'⟩).id = (db.get ⟨k, hk⟩).id ∧
      ((backfill db).get ⟨k, hk'⟩).project_id = (db.get ⟨k, hk⟩).project_id ∧
      ((backfill db).get ⟨k, hk'⟩).created_at = (db.get ⟨k, hk⟩).created_at ∧
      ((backfill db).get ⟨k, hk'⟩).deleted_at = (db.get ⟨k, hk⟩).deleted_at := by
  refine ⟨backfill_length db, ?fields⟩
  intro k hk hk'
  rw [backfill_get db k hk hk']
  exact ⟨applyToTask_id _ _, applyToTask_project_id _ _, applyToTask_created_at _ _,
    applyToTask_deleted_at _ _⟩

/-- Witness for C9 at row 0 of the sample store. -/
theorem C9_frame_witness :
    (backfill exDb).length = exDb.length ∧
      (((backfill exDb).get ⟨0, by decide⟩).id = (exDb.get ⟨0, by decide⟩).id ∧
        ((backfill exDb).get ⟨0, by decide⟩).project_id
          = (exDb.get ⟨0, by decide⟩).project_id ∧
        ((backfill exDb).get ⟨0, by decide⟩).created_at
          = (exDb.get ⟨0, by decide⟩).created_at ∧
        ((backfill exDb).get ⟨0, by decide⟩).deleted_at
          = (exDb.get ⟨0, by decide⟩).deleted_at) :=
  ⟨(C9_frame exDb).1, (C9_frame exDb).2 0 (by decide) (by decide)⟩

theorem count_split (f : Task → Task) :
    ∀ l : List Task,
      (∀ t ∈ l, t.deleted_at.isNone = true → ((f t).project_sequence).isSome = true) →
      (∀ t ∈ l, t.deleted_at.isSome = true → f t = t) →
      (l.map f).countP (fun t => t.project_sequence.isSome)
        = (l.filter (fun t => t.deleted_at.isNone)).length
          + (l.filter (fun t => t.deleted_at.isSome)).countP
              (fun t => t.project_sequence.isSome) := by
  intro l
  induction l with
  | nil => intro _ _; rfl
  | cons t l ih =>
    intro h1 h2
    have ihr := ih (fun u hu => h1 u (List.mem_cons_of_mem _ hu))
      (fun u hu => h2 u (List.mem_cons_of_mem _ hu))
    simp only [List.map_cons, List.countP_cons, List.filter_cons]
    cases hd : t.deleted_at with
    | none =>
      have hs : ((f t).project_sequence).isSome = true :=
        h1 t (List.mem_cons_self _ _) (by rw [hd]; rfl)
      simp [hs, ihr] <;> omega
    | some d =>
      have hft : f t = t :=
        h2 t (List.mem_cons_self _ _) (by rw [hd]; rfl)
      simp [hft, ihr, List.countP_cons] <;> omega

/-- C10: the final verification counts every row whose sequence is
non-null, soft-deleted rows included: the reported count is the number of
non-deleted rows plus the number of soft-deleted rows that already carried
a sequence (those are left unchanged by the run), so it equals the
non-deleted count when all sequences start unset. -/
theorem C10_verification_count (db : Store) (hids : (db.map Task.id).Nodup) :
    (verifyCount (backfill db)
        = (liveTasks db).length
          + (db.filter (fun t => t.deleted_at.isSome)).countP
              (fun t => t.project_sequence.isSome)) ∧
    ((∀ t ∈ db, t.project_sequence = none) →
      verifyCount (backfill db) = (liveTasks db).length) := by
  have hlive : ∀ t ∈ db, t.deleted_at.isNone = true →
      ((applyToTask t (backfillUpdates db)).project_sequence).isSome = true :=
    fun t ht hl =>
      applyToTask_isSome_of_mem (backfillUpdates db) t (mem_updates_of_live db t ht hl)
  have hdel : ∀ t ∈ db, t.deleted_at.isSome = true →
      applyToTask t (backfillUpdates db) = t :=
    fun t ht hd => backfill_deleted_unchanged db t hids ht hd
  have hmain : verifyCount (backfill db)
      = (liveTasks db).length
        + (db.filter (fun t => t.deleted_at.isSome)).countP
            (fun t => t.project_sequence.isSome) := by
    unfold verifyCount
    rw [backfill_eq_map, ← List.countP_eq_length_filter]
    exact count_split (fun t => applyToTask t (backfillUpdates db)) db hlive hdel
  refine ⟨hmain, fun hinit => ?unset⟩
  rw [hmain]
  have hzero : (db.filter (fun t => t.deleted_at.isSome)).countP
      (fun t => t.project_sequence.isSome) = 0 := by
    rw [List.countP_eq_zero]
    intro t ht
    rw [hinit t (List.mem_of_mem_filter ht)]
    simp
  rw [hzero]
  rfl

/-- Witness for C10: in the second sample store the soft-deleted task 102
already carries sequence 5, which the run keeps and the verification
counts on top of the four live rows. -/
theorem C10_verification_count_witness :
    (exDb2.map Task.id).Nodup ∧
      verifyCount (backfill exDb2)
        = (liveTasks exDb2).length
          + (exDb2.filter (fun t => t.deleted_at.isSome)).countP
              (fun t => t.project_sequence.isSome) :=
  ⟨by decide, (C10_verification_count exDb2 (by decide)).1⟩

end Backfill
